import Mathlib

/-!
Verification development for the multiemu machine-assembly and execution engine
(crates/multiemu).  The definitions below are shallow embeddings of:

* the `rangemap` crate operations the engine relies on (`RangeMap::insert`,
  which coalesces adjacent ranges mapping to equal values and panics on an
  empty range; `RangeMap::overlapping`, which yields overlapping entries in
  ascending key order) — modelled as sorted lists of entries, with `Option`
  capturing the panic;
* `Scheduler::new` (src/crates/multiemu/src/scheduler/mod.rs);
* `MemoryTranslationTable::read` / `write` / `preview`
  (src/crates/multiemu/src/memory.rs), with the bounded work stack of
  redirect resolution made explicit and fuel making the while loop total;
* `StandardMemory::read_memory` / `write_memory`
  (src/crates/multiemu/src/definitions/misc/memory/standard.rs), including
  the 4096-byte chunk walk;
* the default `MemoryComponent::preview_memory`
  (src/crates/multiemu/src/component/memory.rs);
* `MachineBuilder::get_component` and the `ComponentBuilder` capability
  setters (src/crates/multiemu/src/machine/mod.rs).

Machine-integer values (`usize`, `u64`) are modelled as `Nat`; every Rust
panic site (failed assertion, integer division by zero, out-of-bounds slice,
`RangeMap` insertion of an empty range, work-stack capacity overflow) is an
explicit failure value of the model.
-/

namespace Multiemu

/-! ### A model of the rangemap crate, as used by the engine.

A `RangeMap`/`RangeSet` is kept as a list of entries sorted by start, with
pairwise disjoint half-open ranges, and adjacent ranges holding equal values
coalesced (the crate documents and maintains exactly this shape).  `insert`
overwrites the overlapping parts of existing entries and coalesces; it panics
on an empty range, which the model renders as `none`. -/

structure RMEntry (α : Type) where
  start : Nat
  stop : Nat
  val : α
deriving DecidableEq

abbrev RMap (α : Type) := List (RMEntry α)

/-- Clip away the part of every existing entry that falls inside `[s, e)`,
keeping the (nonempty) fragments on either side. -/
def rmRemoveRange {α : Type} (l : RMap α) (s e : Nat) : RMap α :=
  l.flatMap (fun ent =>
    (if ent.start < s then [⟨ent.start, min ent.stop s, ent.val⟩] else []) ++
    (if e < ent.stop then [⟨max ent.start e, ent.stop, ent.val⟩] else []))

/-- Insert an entry into a list sorted by `start`, before the first entry that
does not start earlier. -/
def rmInsertSorted {α : Type} (x : RMEntry α) : RMap α → RMap α
  | [] => [x]
  | h :: t => if x.start ≤ h.start then x :: h :: t else h :: rmInsertSorted x t

/-- Coalesce adjacent entries carrying equal values. -/
def rmCoalesce {α : Type} [DecidableEq α] : RMap α → RMap α
  | [] => []
  | [a] => [a]
  | a :: b :: t =>
    if a.stop = b.start ∧ a.val = b.val then
      rmCoalesce (⟨a.start, b.stop, a.val⟩ :: t)
    else
      a :: rmCoalesce (b :: t)
termination_by l => l.length

/-- Model of `RangeMap::insert`.  The crate asserts `range.start < range.end`, so an
empty range is a panic (`none`). -/
def rmInsert {α : Type} [DecidableEq α] (l : RMap α) (s e : Nat) (v : α) :
    Option (RMap α) :=
  if s < e then some (rmCoalesce (rmInsertSorted ⟨s, e, v⟩ (rmRemoveRange l s e)))
  else none

def rmIsEmpty {α : Type} (l : RMap α) : Bool := l.isEmpty

/-- Model of `RangeMap::overlapping`: entries overlapping `[s, e)`, in ascending order. -/
def rmOverlapping {α : Type} (l : RMap α) (s e : Nat) : RMap α :=
  l.filter (fun ent => decide (ent.start < e) && decide (s < ent.stop))

/-! ### Scheduler (src/crates/multiemu/src/scheduler/mod.rs)

`Scheduler::new` receives, for every schedulable component, its `timings`
frequency as a reduced `Ratio<u64>` (cycles per second).  The model takes the
association list of (component id, frequency); a `Ratio` is kept reduced with
a positive denominator by the num crate, and `ratio.recip().denom()` of a
reduced fraction n/d is n. -/

abbrev ComponentId := Nat

/-- A reduced nonnegative rational, standing for `Ratio<u64>`. -/
structure Freq where
  numer : Nat
  denom : Nat
deriving DecidableEq

/-- Result of `Scheduler::new`: the rollover tick count and the precomputed
schedule, a panic, or fuel exhaustion (standing for a while loop that would
never exit — unreachable for the inputs considered here). -/
inductive SchedOut
  | ok (rolloverTick : Nat) (schedule : RMap (List ComponentId))
  | panic
  | fuelOut
deriving DecidableEq

/-- Stable insertion (by run indication, the middle component) used to model
`itertools::sorted_by_key`, which is a stable sort. -/
def insertByRunIndication (x : ComponentId × Nat × Nat) :
    List (ComponentId × Nat × Nat) → List (ComponentId × Nat × Nat)
  | [] => [x]
  | y :: t =>
    if y.2.1 < x.2.1 then y :: insertByRunIndication x t else x :: y :: t

def sortByRunIndication (l : List (ComponentId × Nat × Nat)) :
    List (ComponentId × Nat × Nat) :=
  l.foldr insertByRunIndication []

/-- The per-tick `to_run` list: `(component_id, current_tick % tick_rate,
tick_rate)`, sorted stably by the run indication. -/
def toRun (tickRates : List (ComponentId × Nat)) (t : Nat) :
    List (ComponentId × Nat × Nat) :=
  sortByRunIndication (tickRates.map (fun p => (p.1, t % p.2, p.2)))

/-- The schedule-filling while loop of `Scheduler::new`.  One unit of fuel is
one loop iteration; every iteration advances `current_tick` by at least one
for the inputs considered, so `commonDenominator` fuel is exact. -/
def walkSchedule (tickRates : List (ComponentId × Nat)) (commonDenominator : Nat) :
    Nat → Nat → RMap (List ComponentId) → SchedOut
  | 0, t, schedule =>
    if t < commonDenominator then .fuelOut else .ok commonDenominator schedule
  | fuel + 1, t, schedule =>
    if t < commonDenominator then
      let due := toRun tickRates t
      match due with
      | [(cid, _, rate)] =>
        -- exactly one schedulable component exists in the machine
        match rmInsert schedule t (t + rate) [cid] with
        | some schedule => walkSchedule tickRates commonDenominator fuel (t + rate) schedule
        | none => .panic
      | _ =>
        match (due.filter (fun p => p.2.1 == 0)).length with
        | 0 =>
          -- nothing is set to run here
          walkSchedule tickRates commonDenominator fuel (t + 1) schedule
        | 1 =>
          -- full efficient batching: `to_run[1]` is the next component due
          match due.get? 1, due with
          | some (_, ri1, rate1), (cid0, _, rate0) :: _ =>
            let batchSize := rate1 - ri1
            let normalizedBatchSize := batchSize / rate0
            match rmInsert schedule t (t + normalizedBatchSize) [cid0] with
            | some schedule =>
              walkSchedule tickRates commonDenominator fuel (t + batchSize) schedule
            | none => .panic
          | _, _ => .panic -- `to_run[1]` out of bounds: an indexing panic
        | _ =>
          -- conflicted components: a one-tick slot listing every due component
          match rmInsert schedule t (t + 1)
              ((due.filter (fun p => p.2.1 == 0)).map (·.1)) with
          | some schedule => walkSchedule tickRates commonDenominator fuel (t + 1) schedule
          | none => .panic
    else .ok commonDenominator schedule

/-- Model of `Scheduler::new`.  `Ratio::recip` panics when the numerator is zero, and a
`Ratio` can never hold a zero denominator; both degenerate inputs are panics
of the model.  The `u64` division `common_multiple / numerator` panics when an
adjusted numerator is zero (which happens for any frequency below one cycle
per second, since `common_denominator / ratio.denom()` truncates to zero). -/
def schedulerNew (componentInfos : List (ComponentId × Freq)) : SchedOut :=
  if componentInfos.any (fun p => p.2.numer == 0 || p.2.denom == 0) then .panic
  else
    -- LCM of `ratio.recip().denom()`, which for a reduced n/d is n
    let commonDenominator :=
      componentInfos.foldl (fun acc p => Nat.lcm acc p.2.numer) 1
    -- numerators scaled by `common_denominator / ratio.denom()` (u64 division)
    let adjustedNumerators :=
      componentInfos.map (fun p => (p.1, p.2.numer * (commonDenominator / p.2.denom)))
    let commonMultiple :=
      match adjustedNumerators.map (·.2) with
      | [] => 1
      | x :: xs => xs.foldl Nat.lcm x
    if adjustedNumerators.any (fun p => p.2 == 0) then .panic
    else
      let tickRates := adjustedNumerators.map (fun p => (p.1, commonMultiple / p.2))
      walkSchedule tickRates commonDenominator commonDenominator 0 []

/-! ### Memory records and failure types (src/crates/multiemu/src/memory.rs) -/

inductive ReadMemoryRecord
  | denied
  | redirect (address : Nat)
deriving DecidableEq

inductive WriteMemoryRecord
  | denied
  | redirect (address : Nat)
deriving DecidableEq

inductive PreviewMemoryRecord
  | denied
  | redirect (address : Nat)
  | impossible
deriving DecidableEq

inductive ReadFailureType
  | denied
  | outOfBus
deriving DecidableEq

inductive WriteFailureType
  | denied
  | outOfBus
deriving DecidableEq

inductive PreviewFailureType
  | denied
  | outOfBus
  | impossible
deriving DecidableEq

def VALID_ACCESS_SIZES : List Nat := [1, 2, 4, 8]

def MAX_ACCESS_SIZE : Nat := 8

def CHUNK_SIZE : Nat := 4096

/-! ### StandardMemory (src/crates/multiemu/src/definitions/misc/memory/standard.rs)

The backing buffer (a vector of 4096-byte chunks) is modelled as a function
from flat chunk-relative indices to byte values: chunk `c`, offset `i` is
index `c * CHUNK_SIZE + i`.  The fields of the config that
`read_memory`/`write_memory` never consult (`max_word_size`,
`initial_contents`) are omitted. -/

structure StandardMemoryConfig where
  readable : Bool
  writable : Bool
  rstart : Nat
  rend : Nat
deriving DecidableEq

abbrev ByteStore := Nat → Nat

/-- Model of `Range::is_empty` for a half-open `usize` range. -/
def rangeIsEmpty (s e : Nat) : Bool := decide (e ≤ s)

/-- Overwrite `buf[offset .. offset + bytes.length)` with `bytes` — the
in-place slice copy `buffer[a..b].copy_from_slice(..)` of the Rust code. -/
def listSetRange : List Nat → Nat → List Nat → List Nat
  | [], _, _ => []
  | _ :: t, 0, b :: bs => b :: listSetRange t 0 bs
  | h :: t, 0, [] => h :: t
  | h :: t, o + 1, bytes => h :: listSetRange t o bytes

/-- Overwrite `store[base .. base + bytes.length)` with `bytes`. -/
def storeSetRange (store : ByteStore) (base : Nat) (bytes : List Nat) : ByteStore :=
  fun i => if base ≤ i ∧ i < base + bytes.length then bytes.getD (i - base) 0 else store i

/-- The chunk-copy loop of `StandardMemory::read_memory`.  `chunks` lists the
chunk indices `start_chunk..end_chunk` still to visit.  A `none` is a Rust
panic: indexing a chunk the buffer does not have, or slice bounds that are
reversed or beyond the slice (`chunk_end` is `requested_range.end %
CHUNK_SIZE` on the last chunk, which is 0 — smaller than `chunk_start` —
whenever the requested range ends exactly on a chunk boundary). -/
def stdReadChunkLoop (store : ByteStore)
    (chunksNeeded reqStart reqEnd startChunk endChunk : Nat) :
    List Nat → List Nat → Nat → Option (List Nat)
  | [], buf, _ => some buf
  | ci :: rest, buf, offset =>
    if ci < chunksNeeded then
      let chunkStart := if ci = startChunk then reqStart % CHUNK_SIZE else 0
      let chunkEnd := if ci = endChunk - 1 then reqEnd % CHUNK_SIZE else CHUNK_SIZE
      if chunkStart ≤ chunkEnd ∧ offset + (chunkEnd - chunkStart) ≤ buf.length then
        let bytes := (List.range (chunkEnd - chunkStart)).map
          (fun i => store (ci * CHUNK_SIZE + chunkStart + i))
        let buf2 := listSetRange buf offset bytes
        let offset2 := offset + (chunkEnd - chunkStart)
        if buf2.length ≤ offset2 then some buf2
        else stdReadChunkLoop store chunksNeeded reqStart reqEnd startChunk endChunk
          rest buf2 offset2
      else none
    else none

/-- The chunk-copy loop of `StandardMemory::write_memory`. -/
def stdWriteChunkLoop (bufAll : List Nat)
    (chunksNeeded reqStart reqEnd startChunk endChunk : Nat) :
    List Nat → ByteStore → Nat → Option ByteStore
  | [], store, _ => some store
  | ci :: rest, store, offset =>
    if ci < chunksNeeded then
      let chunkStart := if ci = startChunk then reqStart % CHUNK_SIZE else 0
      let chunkEnd := if ci = endChunk - 1 then reqEnd % CHUNK_SIZE else CHUNK_SIZE
      if chunkStart ≤ chunkEnd ∧ offset + (chunkEnd - chunkStart) ≤ bufAll.length then
        let bytes := (List.range (chunkEnd - chunkStart)).map
          (fun i => bufAll.getD (offset + i) 0)
        let store2 := storeSetRange store (ci * CHUNK_SIZE + chunkStart) bytes
        let offset2 := offset + (chunkEnd - chunkStart)
        if bufAll.length ≤ offset2 then some store2
        else stdWriteChunkLoop bufAll chunksNeeded reqStart reqEnd startChunk endChunk
          rest store2 offset2
      else none
    else none

/-- The error-map construction shared by `StandardMemory::read_memory` and
`write_memory`: a Denied record across the whole access when the operation is
not allowed, then Denied records for the (nonempty) parts of the access that
fall after and before the assigned range. -/
def stdBuildErrors {ρ : Type} [DecidableEq ρ] (deniedVal : ρ) (allowed : Bool)
    (rstart rend address len : Nat) : Option (RMap ρ) := do
  let errors : RMap ρ := []
  let errors ← if allowed then pure errors
    else rmInsert errors address (address + len) deniedVal
  let invalidBefore := (address, rstart)
  let invalidAfter := (rend, address + len)
  if !(rangeIsEmpty invalidAfter.1 invalidAfter.2) ||
      !(rangeIsEmpty invalidBefore.1 invalidBefore.2) then do
    let errors ← if !(rangeIsEmpty invalidAfter.1 invalidAfter.2) then
        rmInsert errors invalidAfter.1 invalidAfter.2 deniedVal
      else pure errors
    if !(rangeIsEmpty invalidBefore.1 invalidBefore.2) then
      rmInsert errors invalidBefore.1 invalidBefore.2 deniedVal
    else pure errors
  else pure errors

/-- Model of `StandardMemory::read_memory`.  Returns the buffer contents after the call
together with the error record map filled in, or `none` for a panic.  The
requested range is relative to `assigned_range.start`; only in-range accesses
are exercised here, so the `usize` subtractions of the original cannot
underflow. -/
def stdReadMemory (cfg : StandardMemoryConfig) (store : ByteStore) (address : Nat)
    (buf : List Nat) : Option (List Nat × RMap ReadMemoryRecord) := do
  let errors ← stdBuildErrors ReadMemoryRecord.denied cfg.readable
    cfg.rstart cfg.rend address buf.length
  let reqStart := address - cfg.rstart
  let reqEnd := address - cfg.rstart + buf.length
  if !(rmIsEmpty errors) then
    return (buf, errors)
  else
    let chunksNeeded := (cfg.rend - cfg.rstart + (CHUNK_SIZE - 1)) / CHUNK_SIZE
    let startChunk := reqStart / CHUNK_SIZE
    let endChunk := (reqEnd + (CHUNK_SIZE - 1)) / CHUNK_SIZE
    let buf2 ← stdReadChunkLoop store chunksNeeded reqStart reqEnd startChunk endChunk
      (List.range' startChunk (endChunk - startChunk)) buf 0
    return (buf2, [])

/-- Model of `StandardMemory::write_memory`.  Returns the backing store after the call
together with the error record map, or `none` for a panic. -/
def stdWriteMemory (cfg : StandardMemoryConfig) (store : ByteStore) (address : Nat)
    (buf : List Nat) : Option (ByteStore × RMap WriteMemoryRecord) := do
  let errors ← stdBuildErrors WriteMemoryRecord.denied cfg.writable
    cfg.rstart cfg.rend address buf.length
  let reqStart := address - cfg.rstart
  let reqEnd := address - cfg.rstart + buf.length
  if !(rmIsEmpty errors) then
    return (store, errors)
  else
    let chunksNeeded := (cfg.rend - cfg.rstart + (CHUNK_SIZE - 1)) / CHUNK_SIZE
    let startChunk := reqStart / CHUNK_SIZE
    let endChunk := (reqEnd + (CHUNK_SIZE - 1)) / CHUNK_SIZE
    let store2 ← stdWriteChunkLoop buf chunksNeeded reqStart reqEnd startChunk endChunk
      (List.range' startChunk (endChunk - startChunk)) store 0
    return (store2, [])

/-! ### Memory components and the translation table -/

/-- The memory components this development instantiates the translation table
with.  `standard` is `StandardMemory`.  `mirror` — modelled from the spec: a
memory-mirroring component reports, for its whole overlap, a Redirect record
whose absolute target is the access address rebased from `base` onto `target`
(the in-tree `MirrorMemory` file is stale and does not compile, so redirect
behaviour follows the `MemoryComponent` contract of component/memory.rs and
the mirroring description of the spec); it touches neither the buffer nor any
state, matching the contract that redirected data lives elsewhere. -/
inductive CompBehavior
  | standard (cfg : StandardMemoryConfig)
  | mirror (base target : Nat)
deriving DecidableEq

def compReadMemory : CompBehavior → ByteStore → Nat → List Nat →
    Option (List Nat × RMap ReadMemoryRecord)
  | .standard cfg, store, address, buf => stdReadMemory cfg store address buf
  | .mirror base target, _, address, buf =>
    some (buf, [⟨address, address + buf.length, .redirect (address - base + target)⟩])

def compWriteMemory : CompBehavior → ByteStore → Nat → List Nat →
    Option (ByteStore × RMap WriteMemoryRecord)
  | .standard cfg, store, address, buf => stdWriteMemory cfg store address buf
  | .mirror base target, store, address, buf =>
    some (store, [⟨address, address + buf.length, .redirect (address - base + target)⟩])

def translateReadRecord : ReadMemoryRecord → PreviewMemoryRecord
  | .denied => .denied
  | .redirect a => .redirect a

/-- The default `MemoryComponent::preview_memory` (no component modelled here
overrides it; `StandardMemory` in particular does not): run `read_memory`,
then insert every read record, translated, into the preview error map. -/
def compPreviewMemory (c : CompBehavior) (store : ByteStore) (address : Nat)
    (buf : List Nat) : Option (List Nat × RMap PreviewMemoryRecord) := do
  let (buf2, readErrors) ← compReadMemory c store address buf
  let prevErrors ← readErrors.foldlM
    (fun m ent => rmInsert m ent.start ent.stop (translateReadRecord ent.val)) []
  return (buf2, prevErrors)

/-- The translation table, restricted to the one address space an access
names: the range map of component claims for that space plus the component
behaviours (the `mappings` and `components` fields of the Rust struct). -/
structure MemoryTranslationTable where
  mappings : RMap ComponentId
  components : List (ComponentId × CompBehavior)

/-- Per-component backing stores — the interior state behind each
component. -/
abbrev Stores := ComponentId → ByteStore

def lookupComp (comps : List (ComponentId × CompBehavior)) (cid : ComponentId) :
    Option CompBehavior :=
  (comps.find? (fun p => p.1 == cid)).map (·.2)

def updateStore (stores : Stores) (cid : ComponentId) (s : ByteStore) : Stores :=
  fun c => if c = cid then s else stores c

/-- A pending work item of redirect resolution:
(absolute address, buffer subrange start, buffer subrange end). -/
abbrev Access := Nat × Nat × Nat

/-- Model of `ArrayVec::push` with the static `MAX_ACCESS_SIZE` capacity: pushing onto
a full stack is a panic. -/
def pushAccess (stack : List Access) (e : Access) : Option (List Access) :=
  if stack.length < MAX_ACCESS_SIZE then some (e :: stack) else none

inductive ReadResult
  | ok (buf : List Nat)
  | err (errors : RMap ReadFailureType)
  | panic
  | fuelOut
deriving DecidableEq

inductive WriteRes
  | ok
  | err (errors : RMap WriteFailureType)
  | panic
  | fuelOut
deriving DecidableEq

inductive PreviewResult
  | ok (buf : List Nat)
  | err (errors : RMap PreviewFailureType)
  | panic
  | fuelOut
deriving DecidableEq

/-- Iterate the error records one component reported during a read: Denied
records accumulate into `detected`, Redirect records are pushed onto the work
stack after the assertion that the component does not redirect into the
assignment range being accessed.  The `usize` subtractions rebasing the
record range onto the buffer cannot underflow for records inside the call
range, which is all the modelled components produce. -/
def procReadRecords (address crStart crStop : Nat) :
    List (RMEntry ReadMemoryRecord) → RMap ReadFailureType → List Access →
    Option (RMap ReadFailureType × List Access)
  | [], detected, stack => some (detected, stack)
  | ent :: rest, detected, stack =>
    match ent.val with
    | .denied => do
      let detected ← rmInsert detected ent.start ent.stop .denied
      procReadRecords address crStart crStop rest detected stack
    | .redirect redirectAddress =>
      if crStart ≤ redirectAddress ∧ redirectAddress < crStop then none
      else do
        let stack ← pushAccess stack
          (redirectAddress, ent.start - address, ent.stop - address)
        procReadRecords address crStart crStop rest detected stack

def procWriteRecords (address crStart crStop : Nat) :
    List (RMEntry WriteMemoryRecord) → RMap WriteFailureType → List Access →
    Option (RMap WriteFailureType × List Access)
  | [], detected, stack => some (detected, stack)
  | ent :: rest, detected, stack =>
    match ent.val with
    | .denied => do
      let detected ← rmInsert detected ent.start ent.stop .denied
      procWriteRecords address crStart crStop rest detected stack
    | .redirect redirectAddress =>
      if crStart ≤ redirectAddress ∧ redirectAddress < crStop then none
      else do
        let stack ← pushAccess stack
          (redirectAddress, ent.start - address, ent.stop - address)
        procWriteRecords address crStart crStop rest detected stack

def procPreviewRecords (address crStart crStop : Nat) :
    List (RMEntry PreviewMemoryRecord) → RMap PreviewFailureType → List Access →
    Option (RMap PreviewFailureType × List Access)
  | [], detected, stack => some (detected, stack)
  | ent :: rest, detected, stack =>
    match ent.val with
    | .denied => do
      let detected ← rmInsert detected ent.start ent.stop .denied
      procPreviewRecords address crStart crStop rest detected stack
    | .redirect redirectAddress =>
      if crStart ≤ redirectAddress ∧ redirectAddress < crStop then none
      else do
        let stack ← pushAccess stack
          (redirectAddress, ent.start - address, ent.stop - address)
        procPreviewRecords address crStart crStop rest detected stack
    | .impossible => do
      let detected ← rmInsert detected ent.start ent.stop .impossible
      procPreviewRecords address crStart crStop rest detected stack

/-- The body of one while-loop iteration of `MemoryTranslationTable::read`:
fold over the component claims overlapping the accessing range, invoking each
component with the overlap start and the buffer subrange, processing its
records, and aborting on the first nonempty detected-error map.  `Sum.inl` is
an early return (error or panic), `Sum.inr` continues with the updated buffer
and work stack. -/
def procReadOverlaps (mtt : MemoryTranslationTable) (stores : Stores)
    (address ss se : Nat) :
    RMap ComponentId → List Nat → List Access →
    ReadResult ⊕ (List Nat × List Access)
  | [], buf, stack => .inr (buf, stack)
  | cr :: rest, buf, stack =>
    match lookupComp mtt.components cr.val with
    | none => .inl .panic
    | some behavior =>
      let overlapStart := max (ss + address) cr.start
      match compReadMemory behavior (stores cr.val) overlapStart
          ((buf.drop ss).take (se - ss)) with
      | none => .inl .panic
      | some (newSlice, records) =>
        let buf2 := listSetRange buf ss newSlice
        match procReadRecords address cr.start cr.stop records [] stack with
        | none => .inl .panic
        | some (detected, stack2) =>
          if rmIsEmpty detected then
            procReadOverlaps mtt stores address ss se rest buf2 stack2
          else .inl (.err detected)

def procWriteOverlaps (mtt : MemoryTranslationTable) (bufAll : List Nat)
    (address ss se : Nat) :
    RMap ComponentId → Stores → List Access →
    (WriteRes × Stores) ⊕ (Stores × List Access)
  | [], stores, stack => .inr (stores, stack)
  | cr :: rest, stores, stack =>
    match lookupComp mtt.components cr.val with
    | none => .inl (.panic, stores)
    | some behavior =>
      let overlapStart := max (ss + address) cr.start
      match compWriteMemory behavior (stores cr.val) overlapStart
          ((bufAll.drop ss).take (se - ss)) with
      | none => .inl (.panic, stores)
      | some (newStore, records) =>
        let stores2 := updateStore stores cr.val newStore
        match procWriteRecords address cr.start cr.stop records [] stack with
        | none => .inl (.panic, stores2)
        | some (detected, stack2) =>
          if rmIsEmpty detected then
            procWriteOverlaps mtt bufAll address ss se rest stores2 stack2
          else .inl (.err detected, stores2)

def procPreviewOverlaps (mtt : MemoryTranslationTable) (stores : Stores)
    (address ss se : Nat) :
    RMap ComponentId → List Nat → List Access →
    PreviewResult ⊕ (List Nat × List Access)
  | [], buf, stack => .inr (buf, stack)
  | cr :: rest, buf, stack =>
    match lookupComp mtt.components cr.val with
    | none => .inl .panic
    | some behavior =>
      let overlapStart := max (ss + address) cr.start
      match compPreviewMemory behavior (stores cr.val) overlapStart
          ((buf.drop ss).take (se - ss)) with
      | none => .inl .panic
      | some (newSlice, records) =>
        let buf2 := listSetRange buf ss newSlice
        match procPreviewRecords address cr.start cr.stop records [] stack with
        | none => .inl .panic
        | some (detected, stack2) =>
          if rmIsEmpty detected then
            procPreviewOverlaps mtt stores address ss se rest buf2 stack2
          else .inl (.err detected)

/-- The redirect-resolution while loop of `MemoryTranslationTable::read`; one
unit of fuel is one loop iteration (one item popped from the work stack). -/
def mttReadGo (mtt : MemoryTranslationTable) (stores : Stores) :
    Nat → List Access → List Nat → ReadResult
  | _, [], buf => .ok buf
  | 0, _ :: _, _ => .fuelOut
  | fuel + 1, (address, ss, se) :: rest, buf =>
    match procReadOverlaps mtt stores address ss se
        (rmOverlapping mtt.mappings (ss + address) (se + address)) buf rest with
    | .inl r => r
    | .inr (buf2, stack) => mttReadGo mtt stores fuel stack buf2

def mttWriteGo (mtt : MemoryTranslationTable) (bufAll : List Nat) :
    Nat → List Access → Stores → WriteRes × Stores
  | _, [], stores => (.ok, stores)
  | 0, _ :: _, stores => (.fuelOut, stores)
  | fuel + 1, (address, ss, se) :: rest, stores =>
    match procWriteOverlaps mtt bufAll address ss se
        (rmOverlapping mtt.mappings (ss + address) (se + address)) stores rest with
    | .inl r => r
    | .inr (stores2, stack) => mttWriteGo mtt bufAll fuel stack stores2

def mttPreviewGo (mtt : MemoryTranslationTable) (stores : Stores) :
    Nat → List Access → List Nat → PreviewResult
  | _, [], buf => .ok buf
  | 0, _ :: _, _ => .fuelOut
  | fuel + 1, (address, ss, se) :: rest, buf =>
    match procPreviewOverlaps mtt stores address ss se
        (rmOverlapping mtt.mappings (ss + address) (se + address)) buf rest with
    | .inl r => r
    | .inr (buf2, stack) => mttPreviewGo mtt stores fuel stack buf2

/-- Model of `MemoryTranslationTable::read`, seeded with the whole requested range.
The debug assertion on the access size is a panic. -/
def mttRead (mtt : MemoryTranslationTable) (stores : Stores) (fuel : Nat)
    (address : Nat) (buf : List Nat) : ReadResult :=
  if VALID_ACCESS_SIZES.contains buf.length then
    mttReadGo mtt stores fuel [(address, 0, buf.length)] buf
  else .panic

/-- Model of `MemoryTranslationTable::write`.  The component stores after the call are
returned alongside the result: mutations made before a failure persist. -/
def mttWrite (mtt : MemoryTranslationTable) (stores : Stores) (fuel : Nat)
    (address : Nat) (buf : List Nat) : WriteRes × Stores :=
  if VALID_ACCESS_SIZES.contains buf.length then
    mttWriteGo mtt buf fuel [(address, 0, buf.length)] stores
  else (.panic, stores)

/-- Model of `MemoryTranslationTable::preview`. -/
def mttPreview (mtt : MemoryTranslationTable) (stores : Stores) (fuel : Nat)
    (address : Nat) (buf : List Nat) : PreviewResult :=
  if VALID_ACCESS_SIZES.contains buf.length then
    mttPreviewGo mtt stores fuel [(address, 0, buf.length)] buf
  else .panic

/-- The redirect-resolution loop of `MemoryTranslationTable::read` halts on
the given access: with some finite number of loop iterations as fuel, the
model no longer reports fuel exhaustion. -/
def readTerminates (mtt : MemoryTranslationTable) (stores : Stores)
    (address : Nat) (buf : List Nat) : Prop :=
  ∃ fuel, mttRead mtt stores fuel address buf ≠ ReadResult.fuelOut

/-- Whether a component of the table, over some address of one of its claimed
assignment ranges, reports a Redirect back into that same range (the
condition the assertion in the resolution loop rejects). -/
def mirrorSelfRedirects (mtt : MemoryTranslationTable) : Bool :=
  mtt.mappings.any (fun cr =>
    match lookupComp mtt.components cr.val with
    | some (.mirror base target) =>
      decide (∃ a ∈ Finset.Ico cr.start cr.stop,
        cr.start ≤ a - base + target ∧ a - base + target < cr.stop)
    | _ => false)

def isStandardComp (mtt : MemoryTranslationTable) (cid : ComponentId) : Bool :=
  match lookupComp mtt.components cid with
  | some (.standard _) => true
  | _ => false

/-- Every claim overlapping `[s, e)` belongs to a plain backing-store
component (which never reports Redirect records). -/
def onlyStandardRegion (mtt : MemoryTranslationTable) (s e : Nat) : Bool :=
  (rmOverlapping mtt.mappings s e).all (fun cr => isStandardComp mtt cr.val)

/-- Single-level redirect condition for one overlapped claim of a read of
`len` bytes at `address`: the claim belongs to a plain backing store, or to a
mirror that does not redirect into the assignment range being accessed and
whose redirected work item lands only on plain backing stores. -/
def oneHopCr (mtt : MemoryTranslationTable) (address len : Nat)
    (cr : RMEntry ComponentId) : Bool :=
  match lookupComp mtt.components cr.val with
  | some (.standard _) => true
  | some (.mirror base target) =>
    let o := max (0 + address) cr.start
    let a2 := o - base + target
    !(decide (cr.start ≤ a2 ∧ a2 < cr.stop)) &&
      onlyStandardRegion mtt ((o - address) + a2) ((o + len - address) + a2)
  | none => false

/-- Single-level redirect condition for a read of `len` bytes at `address`. -/
def oneHopRead (mtt : MemoryTranslationTable) (address len : Nat) : Bool :=
  (rmOverlapping mtt.mappings (0 + address) (len + address)).all
    (oneHopCr mtt address len)

/-! ### Machine builder (src/crates/multiemu/src/machine/mod.rs) -/

/-- One `ComponentTable` row of the component store.  `typeTag` stands for the
concrete Rust component type, consumed by the downcast in `get_component`;
each capability field keeps the payload its Rust info struct records
(component handles aside). -/
structure ComponentTableM where
  typeTag : Nat
  asSchedulable : Option (Freq × List ComponentId × List ComponentId)
  asDisplay : Option Unit
  asInput : Option (List (Nat × Nat) × List Nat)
  asMemory : Option (List (Nat × RMap Unit))
deriving DecidableEq

/-- State of a `ComponentBuilder` during one `build_component` call: the id and machine
store it was created with, the component once `set_component` ran, and the
pending capability records. -/
structure ComponentBuilderM where
  id : Nat
  machineStore : List ComponentTableM
  component : Option Nat
  asSchedulable : Option (Freq × List ComponentId × List ComponentId)
  asDisplay : Option Unit
  asInput : Option (List (Nat × Nat) × List Nat)
  asMemory : Option (List (Nat × RMap Unit))
deriving DecidableEq

def initialComponentBuilder (id : Nat) (store : List ComponentTableM) :
    ComponentBuilderM :=
  { id := id, machineStore := store, component := none, asSchedulable := none,
    asDisplay := none, asInput := none, asMemory := none }

def setComponent (b : ComponentBuilderM) (typeTag : Nat) : ComponentBuilderM :=
  { b with component := some typeTag }

/-- Model of `ComponentBuilder::set_schedulable`: the capability record is
`self.component.clone().map(..)` — it is only formed when `set_component`
already ran. -/
def setSchedulable (b : ComponentBuilderM) (timings : Freq)
    (runAfter runBefore : List ComponentId) : ComponentBuilderM :=
  { b with asSchedulable := b.component.map (fun _ => (timings, runAfter, runBefore)) }

def setDisplay (b : ComponentBuilderM) : ComponentBuilderM :=
  { b with asDisplay := b.component.map (fun _ => ()) }

def setInput (b : ComponentBuilderM) (gamepadTypes : List (Nat × Nat))
    (gamepads : List Nat) : ComponentBuilderM :=
  { b with asInput := b.component.map (fun _ => (gamepadTypes, gamepads)) }

/-- Insert one claimed range into the `assigned_ranges` map of
`set_memory` (an address-space keyed map of `RangeSet`s; `RangeSet::insert`
panics on an empty range). -/
def insertAssignedRange : List (Nat × RMap Unit) → Nat → Nat → Nat →
    Option (List (Nat × RMap Unit))
  | [], space, s, e => do
    let rs ← rmInsert ([] : RMap Unit) s e ()
    return [(space, rs)]
  | (sp, rs) :: rest, space, s, e =>
    if sp = space then do
      let rs2 ← rmInsert rs s e ()
      return (sp, rs2) :: rest
    else do
      let rest2 ← insertAssignedRange rest space s e
      return (sp, rs) :: rest2

def buildAssignedRanges (ranges : List (Nat × Nat × Nat)) :
    Option (List (Nat × RMap Unit)) :=
  ranges.foldlM (fun acc r => insertAssignedRange acc r.1 r.2.1 r.2.2) []

/-- Model of `ComponentBuilder::set_memory`: build the assigned-range map, then form
the capability record only if `self.component` is set. -/
def setMemory (b : ComponentBuilderM) (ranges : List (Nat × Nat × Nat)) :
    Option ComponentBuilderM := do
  let assigned ← buildAssignedRanges ranges
  return { b with asMemory := b.component.map (fun _ => assigned) }

/-- Model of `ComponentBuilder::build`: assert the store length matches the id, demand
the component was set (the `.expect` call on `self.component` — a panic
otherwise), and push the component table row. -/
def componentBuilderBuild (b : ComponentBuilderM) : Option (List ComponentTableM) :=
  if b.machineStore.length = b.id then
    match b.component with
    | some tag =>
      some (b.machineStore ++
        [{ typeTag := tag, asSchedulable := b.asSchedulable,
           asDisplay := b.asDisplay, asInput := b.asInput, asMemory := b.asMemory }])
    | none => none
  else none

/-- Model of `MachineBuilder::get_component`: look the id up in the component store,
then downcast to the expected concrete type; either failure yields `None` —
there is no panicking path. -/
def getComponent (store : List ComponentTableM) (id : Nat) (expectedTag : Nat) :
    Option Nat :=
  match store.get? id with
  | none => none
  | some t => if t.typeTag = expectedTag then some t.typeTag else none

/-- A factory that invokes every capability setter before `set_component`,
then sets the component and finishes the builder — the scenario of C10. -/
def settersBeforeSetComponent (timings : Freq)
    (runAfter runBefore : List ComponentId) (ranges : List (Nat × Nat × Nat))
    (gamepadTypes : List (Nat × Nat)) (gamepads : List Nat) (typeTag : Nat) :
    Option (List ComponentTableM) := do
  let b := initialComponentBuilder 0 []
  let b := setSchedulable b timings runAfter runBefore
  let b ← setMemory b ranges
  let b := setDisplay b
  let b := setInput b gamepadTypes gamepads
  let b := setComponent b typeTag
  componentBuilderBuild b

/-! ### Concrete instances named by the claims -/

/-- Backing stores holding zero everywhere. -/
def zeroStores : Stores := fun _ _ => 0

/-- Backing stores holding 0xFF everywhere. -/
def ffStores : Stores := fun _ _ => 255

/-- An address space in which one plain component claims only
`[0x100, 0x200)`: the byte at address 0 is claimed by nobody. -/
def mttUnclaimed : MemoryTranslationTable :=
  ⟨[⟨256, 512, 0⟩], [(0, .standard ⟨true, true, 256, 512⟩)]⟩

/-- One readable, writable plain backing-store component claiming `[0, 16)`. -/
def mttPlain16 : MemoryTranslationTable :=
  ⟨[⟨0, 16, 0⟩], [(0, .standard ⟨true, true, 0, 16⟩)]⟩

/-- One readable, writable plain backing-store component claiming
`[0, 0x1000)` — exactly one 4096-byte chunk. -/
def mttChunk : MemoryTranslationTable :=
  ⟨[⟨0, 4096, 0⟩], [(0, .standard ⟨true, true, 0, 4096⟩)]⟩

/-- Two mirroring components redirecting into each other: `[0, 16)` redirects
onto `[16, 32)` and `[16, 32)` back onto `[0, 16)`.  Neither redirects into
its own claimed range. -/
def mttMutualMirrors : MemoryTranslationTable :=
  ⟨[⟨0, 16, 0⟩, ⟨16, 32, 1⟩], [(0, .mirror 0 16), (1, .mirror 16 0)]⟩

/-- One mirror component as the only claim of the accessed space. -/
def singleMirror (s e base target : Nat) : MemoryTranslationTable :=
  ⟨[⟨s, e, 0⟩], [(0, .mirror base target)]⟩

/-- One plain backing-store component claiming `[cfg.rstart, cfg.rend)`. -/
def singleStandard (cfg : StandardMemoryConfig) : MemoryTranslationTable :=
  ⟨[⟨cfg.rstart, cfg.rend, 0⟩], [(0, .standard cfg)]⟩

/-- The mirror arrangement of the spec: `[0x10000, 0x20000)` redirects to base
0 of a plain backing store claiming `[0, 0x1000)`. -/
def mttOneHop : MemoryTranslationTable :=
  ⟨[⟨0, 4096, 1⟩, ⟨65536, 131072, 0⟩],
   [(0, .mirror 65536 0), (1, .standard ⟨true, true, 0, 4096⟩)]⟩

/-- A component store holding exactly one component, of type tag 3. -/
def demoStore : List ComponentTableM :=
  [{ typeTag := 3, asSchedulable := none, asDisplay := none, asInput := none,
     asMemory := none }]

/-! ## Theorems -/

/-! ### Range-map helper lemmas -/

theorem rmInsert_nil {α : Type} [DecidableEq α] (s e : Nat) (v : α) (h : s < e) :
    rmInsert ([] : RMap α) s e v = some [⟨s, e, v⟩] := by
  simp [rmInsert, rmRemoveRange, rmInsertSorted, rmCoalesce, h]

theorem rmInsert_extend {α : Type} [DecidableEq α] (t : Nat) (v : α) (ht : 0 < t) :
    rmInsert [⟨0, t, v⟩] t (t + 1) v = some [⟨0, t + 1, v⟩] := by
  have h1 : t < t + 1 := Nat.lt_succ_self t
  have h2 : ¬ (t + 1 < t) := by omega
  have h3 : ¬ (t ≤ 0) := by omega
  simp [rmInsert, rmRemoveRange, rmInsertSorted, rmCoalesce, h1, h2, h3, ht,
    Nat.min_self]

/-! ### Scheduler lemmas -/

/-- When every while-loop iteration inserts the one-tick slice `[t, t+1) ↦ L`
and advances one tick, the range map coalescing grows one single slice that
ends up spanning the whole rollover. -/
theorem walkSchedule_uniform (tr : List (ComponentId × Nat)) (L : List ComponentId)
    (n : Nat) (hn : 0 < n)
    (hstep : ∀ fuel t sch, t < n → walkSchedule tr n (fuel + 1) t sch =
      (match rmInsert sch t (t + 1) L with
       | some s => walkSchedule tr n fuel (t + 1) s
       | none => SchedOut.panic)) :
    ∀ fuel t sch, t + fuel = n →
      (t = 0 ∧ sch = [] ∨ 0 < t ∧ sch = [⟨0, t, L⟩]) →
      walkSchedule tr n fuel t sch = .ok n [⟨0, n, L⟩] := by
  intro fuel
  induction fuel with
  | zero =>
    intro t sch ht hsch
    have htn : t = n := by omega
    subst htn
    rcases hsch with ⟨h0, _⟩ | ⟨_, hs⟩
    · omega
    · subst hs
      simp [walkSchedule]
  | succ k ih =>
    intro t sch ht hsch
    have htlt : t < n := by omega
    rw [hstep k t sch htlt]
    rcases hsch with ⟨h0, hs⟩ | ⟨hpos, hs⟩
    · subst h0; subst hs
      rw [rmInsert_nil 0 1 L (by omega)]
      exact ih 1 [⟨0, 1, L⟩] (by omega) (Or.inr ⟨by omega, rfl⟩)
    · subst hs
      rw [rmInsert_extend t L hpos]
      exact ih (t + 1) [⟨0, t + 1, L⟩] (by omega) (Or.inr ⟨by omega, rfl⟩)

/-! ### Claim C1 -/

/-- C1: the claim that the precomputed schedule exactly tiles
`[0, rollover_tick)` with drift-free per-component totals fails on the code:
for the positive rational frequencies 2 Hz and 3 Hz, `Scheduler::new` itself
panics — at tick 2 only the 3 Hz component (tick rate 2) is due, the batch to
the next due tick is 1 tick, `normalized_batch_size = 1 / 2 = 0`, and
`RangeMap::insert` is called with the empty range `2..2`, which the rangemap
crate asserts against.  The 700 Hz + 60 Hz pair of the spec overview panics
the same way at tick 35. -/
theorem claim_C1 :
    schedulerNew [(0, ⟨2, 1⟩), (1, ⟨3, 1⟩)] = SchedOut.panic ∧
    schedulerNew [(0, ⟨700, 1⟩), (1, ⟨60, 1⟩)] = SchedOut.panic := by
  exact ⟨by decide, by decide⟩

/-! ### Claim C7 -/

/-- C7 counterexample: a single schedulable component whose frequency is the
positive rational 1/2 Hz.  `common_denominator / ratio.denom() = 1 / 2`
truncates to zero, the adjusted numerator is zero, and the `u64` division
`common_multiple / numerator` panics — no schedule of the claimed single-slice
shape (rollover 1, slice `[0, 1)`) is produced. -/
theorem claim_C7_counterexample :
    schedulerNew [(0, ⟨1, 2⟩)] = SchedOut.panic ∧
    schedulerNew [(0, ⟨1, 2⟩)] ≠ SchedOut.ok 1 [⟨0, 1, [0]⟩] := by decide

/-- C7 (amended): if exactly one schedulable component exists and its reduced
frequency n/d is at least one cycle per second (d ≤ n), the precomputed
schedule is a single contiguous slice spanning the whole rollover period
`[0, rollover_tick)` assigned to that component. -/
theorem claim_C7 (cid n d : Nat) (hd : 0 < d) (hdn : d ≤ n) :
    schedulerNew [(cid, ⟨n, d⟩)] = SchedOut.ok n [⟨0, n, [cid]⟩] := by
  have hn : 0 < n := lt_of_lt_of_le hd hdn
  have hq : 0 < n / d := Nat.div_pos hdn hd
  have hm : 0 < n * (n / d) := Nat.mul_pos hn hq
  have hself : n * (n / d) / (n * (n / d)) = 1 := Nat.div_self hm
  simp only [schedulerNew, List.any_cons, List.any_nil, List.foldl_cons,
    List.foldl_nil, List.map_cons, List.map_nil, Nat.lcm_one_left,
    beq_iff_eq, hn.ne', hd.ne', hm.ne', hself]
  rw [if_neg (by simp [hn.ne', hd.ne']), if_neg (by simp [hm.ne'])]
  exact walkSchedule_uniform [(cid, 1)] [cid] n hn
    (fun fuel t sch htlt => by
      simp [walkSchedule, toRun, sortByRunIndication, insertByRunIndication,
        Nat.mod_one, htlt])
    n 0 [] (by omega) (Or.inl ⟨rfl, rfl⟩)

/-- C7 witness: one component, id 5, at 7/2 cycles per second. -/
theorem claim_C7_witness :
    0 < 2 ∧ 2 ≤ 7 ∧
      schedulerNew [(5, ⟨7, 2⟩)] = SchedOut.ok 7 [⟨0, 7, [5]⟩] :=
  ⟨by decide, by decide, claim_C7 5 7 2 (by decide) (by decide)⟩

/-! ### Claim C8 -/

/-- C8 counterexample: two components at the identical positive frequency
1/2 Hz.  As for C7, the adjusted numerators truncate to zero and
`Scheduler::new` panics on a division by zero instead of producing the
claimed single full-rollover slice listing both components. -/
theorem claim_C8_counterexample :
    schedulerNew [(0, ⟨1, 2⟩), (1, ⟨1, 2⟩)] = SchedOut.panic ∧
    schedulerNew [(0, ⟨1, 2⟩), (1, ⟨1, 2⟩)] ≠ SchedOut.ok 1 [⟨0, 1, [0, 1]⟩] := by
  decide

/-- C8 (amended): two schedulable components configured with the identical
reduced frequency n/d of at least one cycle per second produce a schedule
with exactly one slice, spanning the whole rollover `[0, rollover_tick)`,
listing both components together. -/
theorem claim_C8 (a b n d : Nat) (hab : a ≠ b) (hd : 0 < d) (hdn : d ≤ n) :
    schedulerNew [(a, ⟨n, d⟩), (b, ⟨n, d⟩)] = SchedOut.ok n [⟨0, n, [a, b]⟩] := by
  have hn : 0 < n := lt_of_lt_of_le hd hdn
  have hq : 0 < n / d := Nat.div_pos hdn hd
  have hm : 0 < n * (n / d) := Nat.mul_pos hn hq
  have hself : n * (n / d) / (n * (n / d)) = 1 := Nat.div_self hm
  simp only [schedulerNew, List.any_cons, List.any_nil, List.foldl_cons,
    List.foldl_nil, List.map_cons, List.map_nil, Nat.lcm_one_left, Nat.lcm_self,
    beq_iff_eq, hn.ne', hd.ne', hm.ne', hself]
  rw [if_neg (by simp [hn.ne', hd.ne']), if_neg (by simp [hm.ne'])]
  exact walkSchedule_uniform [(a, 1), (b, 1)] [a, b] n hn
    (fun fuel t sch htlt => by
      simp [walkSchedule, toRun, sortByRunIndication, insertByRunIndication,
        Nat.mod_one, htlt])
    n 0 [] (by omega) (Or.inl ⟨rfl, rfl⟩)

/-- C8 witness: components 4 and 9 both at 5/2 cycles per second. -/
theorem claim_C8_witness :
    (4 : Nat) ≠ 9 ∧ 0 < 2 ∧ 2 ≤ 5 ∧
      schedulerNew [(4, ⟨5, 2⟩), (9, ⟨5, 2⟩)] = SchedOut.ok 5 [⟨0, 5, [4, 9]⟩] :=
  ⟨by decide, by decide, by decide, claim_C8 4 9 5 2 (by decide) (by decide) (by decide)⟩

/-! ### Claim C2 -/

/-- C2: the claim that an access touching bytes claimed by no component
returns a typed OutOfBus error fails on the code: reading one byte at
address 0 of a space whose only claim is `[0x100, 0x200)` finds no
overlapping entry, performs nothing, and returns `Ok(())` with the buffer
untouched.  No code path of `read`/`write`/`preview` ever constructs an
OutOfBus failure. -/
theorem claim_C2 :
    mttRead mttUnclaimed zeroStores 4 0 [0] = ReadResult.ok [0] := by decide

/-! ### Claim C5 -/

/-- C5: the write-then-read roundtrip claim fails on the code: for a plain
backing-store component claiming `[0, 0x1000)`, a one-byte write (or read) at
address 0xFFF panics.  The requested relative range is `4095..4096`, and on
the last chunk `chunk_end = requested_range.end % CHUNK_SIZE = 4096 % 4096 =
0`, so the code slices `chunk[4095..0]` — reversed bounds, a panic.  The
`extensive` test in standard.rs drives exactly this input. -/
theorem claim_C5 :
    (mttWrite mttChunk zeroStores 2 4095 [7]).1 = WriteRes.panic ∧
    mttRead mttChunk zeroStores 2 4095 [0] = ReadResult.panic := by
  exact ⟨by decide, by decide⟩

/-! ### Claim C4 -/

/-- C4 counterexample: a readable plain backing store (which does not
override `preview_memory`) holding 0xFF bytes.  A four-byte preview of its
range succeeds with the stored bytes — the default `preview_memory` delegates
to `read_memory` — instead of failing with an Impossible record for every
requested byte as the claim states. -/
theorem claim_C4_counterexample :
    mttPreview mttPlain16 ffStores 4 0 [0, 0, 0, 0] =
      PreviewResult.ok [255, 255, 255, 255] ∧
    mttPreview mttPlain16 ffStores 4 0 [0, 0, 0, 0] ≠
      PreviewResult.err [⟨0, 4, PreviewFailureType.impossible⟩] := by
  exact ⟨by decide, by decide⟩

/-! ### Claim C3, counterexample part -/

/-- Helper for the C3 counterexample: with the two mutually-redirecting
mirrors, the work stack alternates forever between the original item and the
redirected one, so every fuel bound is exhausted. -/
theorem mutualMirrors_loop : ∀ fuel,
    mttReadGo mttMutualMirrors zeroStores fuel [(0, 0, 1)] [0] = ReadResult.fuelOut ∧
    mttReadGo mttMutualMirrors zeroStores fuel [(16, 0, 1)] [0] = ReadResult.fuelOut := by
  intro fuel
  induction fuel with
  | zero => exact ⟨rfl, rfl⟩
  | succ k ih =>
    refine ⟨?_, ?_⟩
    · show mttReadGo mttMutualMirrors zeroStores (k + 1) [(0, 0, 1)] [0] = _
      rw [show mttReadGo mttMutualMirrors zeroStores (k + 1) [(0, 0, 1)] [0]
            = mttReadGo mttMutualMirrors zeroStores k [(16, 0, 1)] [0] from rfl]
      exact ih.2
    · rw [show mttReadGo mttMutualMirrors zeroStores (k + 1) [(16, 0, 1)] [0]
            = mttReadGo mttMutualMirrors zeroStores k [(0, 0, 1)] [0] from rfl]
      exact ih.1

/-- C3 counterexample: in the mutual-mirror machine no component redirects
into its own claimed range, yet the redirect-resolution loop of a one-byte
read at address 0 never terminates — the assertion alone does not bound the
loop, refuting the termination half of the claim as stated. -/
theorem claim_C3_counterexample :
    mirrorSelfRedirects mttMutualMirrors = false ∧
    ¬ readTerminates mttMutualMirrors zeroStores 0 [0] := by
  refine ⟨by decide, ?_⟩
  rintro ⟨fuel, hf⟩
  apply hf
  have h0 : mttRead mttMutualMirrors zeroStores fuel 0 [0]
      = mttReadGo mttMutualMirrors zeroStores fuel [(0, 0, 1)] [0] := rfl
  rw [h0]
  exact (mutualMirrors_loop fuel).1

/-! ### Claim C9 -/

/-- C9 counterexample: looking up a component id that was never assigned
(id 5 in a store holding one component) yields `None` — an absent value the
caller can proceed past — rather than aborting construction:
`get_component` has no panicking path at all. -/
theorem claim_C9_counterexample :
    getComponent demoStore 5 3 = none := by decide

/-- C9 (amended): `get_component` with a never-assigned ComponentId returns
`None`; aborting on a missing sibling is left to the calling factory (which
typically unwraps), not performed by `get_component` itself. -/
theorem claim_C9 (store : List ComponentTableM) (id tag : Nat)
    (h : store.length ≤ id) : getComponent store id tag = none := by
  unfold getComponent
  rw [List.get?_eq_none.mpr h]

/-- C9 witness: the one-component store, id 5, expected type tag 0. -/
theorem claim_C9_witness :
    demoStore.length ≤ 5 ∧ getComponent demoStore 5 0 = none :=
  ⟨by decide, claim_C9 demoStore 5 0 (by decide)⟩

/-! ### Claim C10 -/

theorem rmInsert_isSome {α : Type} [DecidableEq α] (l : RMap α) (s e : Nat)
    (v : α) (hse : s < e) : ∃ m, rmInsert l s e v = some m :=
  ⟨_, by rw [rmInsert, if_pos hse]⟩

theorem insertAssignedRange_isSome :
    ∀ (acc : List (Nat × RMap Unit)) (space s e : Nat), s < e →
      ∃ acc2, insertAssignedRange acc space s e = some acc2 := by
  intro acc
  induction acc with
  | nil =>
    intro space s e hse
    rcases rmInsert_isSome ([] : RMap Unit) s e () hse with ⟨m, hm⟩
    exact ⟨[(space, m)], by simp [insertAssignedRange, hm]⟩
  | cons p rest ih =>
    intro space s e hse
    obtain ⟨sp, rs⟩ := p
    by_cases hsp : sp = space
    · rcases rmInsert_isSome rs s e () hse with ⟨m, hm⟩
      exact ⟨(sp, m) :: rest, by simp [insertAssignedRange, hsp, hm]⟩
    · rcases ih space s e hse with ⟨acc2, h2⟩
      exact ⟨(sp, rs) :: acc2, by simp [insertAssignedRange, hsp, h2]⟩

theorem buildAssignedRanges_isSome :
    ∀ (ranges : List (Nat × Nat × Nat)), (∀ r ∈ ranges, r.2.1 < r.2.2) →
      ∀ acc, ∃ x, List.foldlM
        (fun acc r => insertAssignedRange acc r.1 r.2.1 r.2.2) acc ranges = some x := by
  intro ranges
  induction ranges with
  | nil => intro _ acc; exact ⟨acc, rfl⟩
  | cons r rest ih =>
    intro hr acc
    rcases insertAssignedRange_isSome acc r.1 r.2.1 r.2.2 (hr r (by simp)) with ⟨acc2, h2⟩
    rcases ih (fun x hx => hr x (by simp [hx])) acc2 with ⟨x, hx⟩
    refine ⟨x, ?_⟩
    rw [List.foldlM_cons, h2]
    simpa using hx

/-- C10: a factory that invokes `set_schedulable`, `set_memory`,
`set_display` and `set_input` before `set_component` has every one of those
capability registrations silently dropped — `self.component.clone().map(..)`
is `None` at that point — so the component table row of the built machine
records no capability, and no error is raised. -/
theorem claim_C10 (timings : Freq) (ra rb : List ComponentId)
    (ranges : List (Nat × Nat × Nat)) (gt : List (Nat × Nat)) (gp : List Nat)
    (tag : Nat) (hr : ∀ r ∈ ranges, r.2.1 < r.2.2) :
    settersBeforeSetComponent timings ra rb ranges gt gp tag =
      some [{ typeTag := tag, asSchedulable := none, asDisplay := none,
              asInput := none, asMemory := none }] := by
  rcases buildAssignedRanges_isSome ranges hr [] with ⟨x, hx⟩
  unfold settersBeforeSetComponent setMemory buildAssignedRanges
  simp [initialComponentBuilder, setSchedulable, setDisplay, setInput,
    setComponent, componentBuilderBuild, hx]

/-- C10 witness: a frequency of 60 Hz, one claimed range, one gamepad type. -/
theorem claim_C10_witness :
    (∀ r ∈ [((0 : Nat), (10 : Nat), (20 : Nat))], r.2.1 < r.2.2) ∧
    settersBeforeSetComponent ⟨60, 1⟩ [] [] [(0, 10, 20)] [(1, 2)] [1] 7 =
      some [{ typeTag := 7, asSchedulable := none, asDisplay := none,
              asInput := none, asMemory := none }] :=
  ⟨by decide, claim_C10 ⟨60, 1⟩ [] [] [(0, 10, 20)] [(1, 2)] [1] 7 (by decide)⟩

/-! ### List and error-map helper lemmas for the memory claims -/

theorem listSetRange_length : ∀ (l : List Nat) (o : Nat) (b : List Nat),
    (listSetRange l o b).length = l.length := by
  intro l
  induction l with
  | nil => intro o b; cases o <;> cases b <;> rfl
  | cons x t ih =>
    intro o b
    cases o with
    | zero => cases b with
      | nil => rfl
      | cons y ys => simp [listSetRange, ih 0 ys]
    | succ o => simp [listSetRange, ih o b]

theorem listSetRange_zero_full (buf bytes : List Nat) (h : bytes.length = buf.length) :
    listSetRange buf 0 bytes = bytes := by
  induction buf generalizing bytes with
  | nil => cases bytes with
    | nil => rfl
    | cons y ys => simp at h
  | cons x t ih =>
    cases bytes with
    | nil => simp at h
    | cons y ys => simp [listSetRange, ih ys (by simpa using h)]

theorem mem_of_rmInsertSorted {α : Type} (x : RMEntry α) :
    ∀ (l : RMap α) (y : RMEntry α), y ∈ rmInsertSorted x l → y = x ∨ y ∈ l := by
  intro l
  induction l with
  | nil => intro y hy; simp [rmInsertSorted] at hy; exact Or.inl hy
  | cons h t ih =>
    intro y hy
    rw [rmInsertSorted] at hy
    by_cases hc : x.start ≤ h.start
    · rw [if_pos hc] at hy
      rcases List.mem_cons.mp hy with hy | hy
      · exact Or.inl hy
      · exact Or.inr hy
    · rw [if_neg hc] at hy
      rcases List.mem_cons.mp hy with hy | hy
      · exact Or.inr (List.mem_cons.mpr (Or.inl hy))
      · rcases ih y hy with h1 | h1
        · exact Or.inl h1
        · exact Or.inr (List.mem_cons.mpr (Or.inr h1))

theorem rmInsertSorted_ne_nil {α : Type} (x : RMEntry α) :
    ∀ l : RMap α, rmInsertSorted x l ≠ [] := by
  intro l
  cases l with
  | nil => simp [rmInsertSorted]
  | cons h t =>
    rw [rmInsertSorted]
    by_cases hc : x.start ≤ h.start
    · rw [if_pos hc]; simp
    · rw [if_neg hc]; simp

theorem rmCoalesce_ne_nil {α : Type} [DecidableEq α] :
    ∀ l : RMap α, l ≠ [] → rmCoalesce l ≠ [] := by
  intro l
  induction l using rmCoalesce.induct with
  | case1 => intro h; exact absurd rfl h
  | case2 a => intro _; simp [rmCoalesce]
  | case3 a b t hcond ih =>
    intro _
    rw [rmCoalesce, if_pos hcond]
    exact ih (by simp)
  | case4 a b t hcond ih =>
    intro _
    rw [rmCoalesce, if_neg hcond]
    simp

theorem rmCoalesce_prop {α : Type} [DecidableEq α] (P : α → Prop) :
    ∀ l : RMap α, (∀ x ∈ l, P x.val ∧ x.start < x.stop) →
      ∀ x ∈ rmCoalesce l, P x.val ∧ x.start < x.stop := by
  intro l
  induction l using rmCoalesce.induct with
  | case1 => intro _ x hx; rw [rmCoalesce] at hx; simp at hx
  | case2 a =>
    intro hl x hx
    rw [rmCoalesce] at hx
    simp only [List.mem_singleton] at hx
    subst hx
    exact hl x (by simp)
  | case3 a b t hcond ih =>
    intro hl x hx
    rw [rmCoalesce, if_pos hcond] at hx
    refine ih ?_ x hx
    intro y hy
    rcases List.mem_cons.mp hy with hy | hy
    · subst hy
      have ha := hl a (by simp)
      have hb := hl b (by simp)
      refine ⟨ha.1, ?_⟩
      show a.start < b.stop
      have h1 := ha.2
      have h2 := hb.2
      have h3 := hcond.1
      omega
    · exact hl y (List.mem_cons.mpr (Or.inr (List.mem_cons.mpr (Or.inr hy))))
  | case4 a b t hcond ih =>
    intro hl x hx
    rw [rmCoalesce, if_neg hcond] at hx
    rcases List.mem_cons.mp hx with hx | hx
    · subst hx; exact hl x (by simp)
    · exact ih (fun y hy => hl y (List.mem_cons_of_mem _ hy)) x hx

theorem rmRemoveRange_prop {α : Type} (P : α → Prop) (l : RMap α) (s e : Nat)
    (hl : ∀ x ∈ l, P x.val ∧ x.start < x.stop) :
    ∀ x ∈ rmRemoveRange l s e, P x.val ∧ x.start < x.stop := by
  intro x hx
  simp only [rmRemoveRange, List.mem_flatMap] at hx
  rcases hx with ⟨ent, hent, hx⟩
  have hq := hl ent hent
  rcases List.mem_append.mp hx with hx | hx
  · by_cases hc : ent.start < s
    · rw [if_pos hc] at hx
      simp only [List.mem_singleton] at hx
      subst hx
      exact ⟨hq.1, lt_min hq.2 hc⟩
    · rw [if_neg hc] at hx; simp at hx
  · by_cases hc : e < ent.stop
    · rw [if_pos hc] at hx
      simp only [List.mem_singleton] at hx
      subst hx
      exact ⟨hq.1, max_lt hq.2 hc⟩
    · rw [if_neg hc] at hx; simp at hx

theorem rmInsert_prop {α : Type} [DecidableEq α] (P : α → Prop)
    {l : RMap α} {s e : Nat} {v : α} {l2 : RMap α}
    (h : rmInsert l s e v = some l2)
    (hl : ∀ x ∈ l, P x.val ∧ x.start < x.stop) (hv : P v) :
    ∀ x ∈ l2, P x.val ∧ x.start < x.stop := by
  unfold rmInsert at h
  split at h
  · rename_i hse
    injection h with h
    subst h
    refine rmCoalesce_prop P _ ?_
    intro y hy
    rcases mem_of_rmInsertSorted _ _ _ hy with hy | hy
    · subst hy; exact ⟨hv, hse⟩
    · exact rmRemoveRange_prop P l s e hl y hy
  · exact absurd h (by simp)

theorem rmInsert_ne_nil {α : Type} [DecidableEq α] {l : RMap α} {s e : Nat}
    {v : α} {l2 : RMap α} (h : rmInsert l s e v = some l2) : l2 ≠ [] := by
  unfold rmInsert at h
  split at h
  · injection h with h
    subst h
    exact rmCoalesce_ne_nil _ (rmInsertSorted_ne_nil _ _)
  · exact absurd h (by simp)

/-- Chained optional insert step of `stdBuildErrors`: the entry property is
preserved whether or not the conditional insert runs. -/
theorem optStep {ρ : Type} [DecidableEq ρ] {dv : ρ} {prev next : RMap ρ} {s e : Nat}
    (cond : Prop) [Decidable cond]
    (h : (if cond then rmInsert prev s e dv else some prev) = some next)
    (hprev : ∀ x ∈ prev, x.val = dv ∧ x.start < x.stop) :
    ∀ x ∈ next, x.val = dv ∧ x.start < x.stop := by
  split at h
  · exact rmInsert_prop (fun vv => vv = dv) h hprev rfl
  · injection h with hh; subst hh; exact hprev

/-- Every entry `stdBuildErrors` produces carries the denied value and a
nonempty range. -/
theorem stdBuildErrors_prop {ρ : Type} [DecidableEq ρ] (dv : ρ) (allowed : Bool)
    (rs re a len : Nat) {m : RMap ρ}
    (h : stdBuildErrors dv allowed rs re a len = some m) :
    ∀ x ∈ m, x.val = dv ∧ x.start < x.stop := by
  cases allowed with
  | true =>
    unfold stdBuildErrors at h
    rw [if_pos rfl] at h
    simp only [Option.pure_def, Option.bind_eq_bind, Option.some_bind] at h
    split at h
    · split at h
      · simp only [Option.bind_eq_bind, Option.bind_eq_some] at h
        rcases h with ⟨e1, hA, hB⟩
        exact optStep _ hB (rmInsert_prop (fun vv => vv = dv) hA (by simp) rfl)
      · exact optStep _ h (by simp)
    · injection h with hh; subst hh; simp
  | false =>
    unfold stdBuildErrors at h
    rw [if_neg (by simp)] at h
    simp only [Option.pure_def, Option.bind_eq_bind, Option.bind_eq_some] at h
    rcases h with ⟨e0, h0, h⟩
    have he0 := rmInsert_prop (fun vv => vv = dv) h0 (by simp) rfl
    split at h
    · split at h
      · simp only [Option.bind_eq_bind, Option.bind_eq_some] at h
        rcases h with ⟨e1, hA, hB⟩
        exact optStep _ hB (rmInsert_prop (fun vv => vv = dv) hA he0 rfl)
      · exact optStep _ h he0
    · injection h with hh; subst hh; exact he0

/-- For an access lying entirely inside the assigned range, `stdBuildErrors`
reduces to the single whole-access Denied record, or to no record at all when
the operation is allowed. -/
theorem stdBuildErrors_inRange {ρ : Type} [DecidableEq ρ] (dv : ρ) (allowed : Bool)
    (rs re a len : Nat) (hlen : 0 < len) (h1 : rs ≤ a) (h2 : a + len ≤ re) :
    stdBuildErrors dv allowed rs re a len =
      some (if allowed then [] else [⟨a, a + len, dv⟩]) := by
  have hafter : rangeIsEmpty re (a + len) = true := by
    simp only [rangeIsEmpty, decide_eq_true_eq]; omega
  have hbefore : rangeIsEmpty a rs = true := by
    simp only [rangeIsEmpty, decide_eq_true_eq]; omega
  cases allowed with
  | true => simp [stdBuildErrors, hafter, hbefore]
  | false =>
    simp [stdBuildErrors, hafter, hbefore,
      rmInsert_nil a (a + len) dv (by omega)]

/-- Evaluation of `StandardMemory::read_memory` on a non-readable component, for an access
inside the assigned range: a Denied record for exactly the requested byte
range, and the buffer untouched. -/
theorem stdReadMemory_denied (w : Bool) (rs re a : Nat) (store : ByteStore)
    (buf : List Nat) (hlen : 0 < buf.length) (h1 : rs ≤ a)
    (h2 : a + buf.length ≤ re) :
    stdReadMemory ⟨false, w, rs, re⟩ store a buf =
      some (buf, [⟨a, a + buf.length, ReadMemoryRecord.denied⟩]) := by
  unfold stdReadMemory
  rw [stdBuildErrors_inRange ReadMemoryRecord.denied false rs re a buf.length
    hlen h1 h2]
  simp [rmIsEmpty]

/-- Evaluation of `StandardMemory::write_memory` on a non-writable component, for an access
inside the assigned range: a Denied record for exactly the requested byte
range, and the backing store returned untouched. -/
theorem stdWriteMemory_denied (r : Bool) (rs re a : Nat) (store : ByteStore)
    (buf : List Nat) (hlen : 0 < buf.length) (h1 : rs ≤ a)
    (h2 : a + buf.length ≤ re) :
    stdWriteMemory ⟨r, false, rs, re⟩ store a buf =
      some (store, [⟨a, a + buf.length, WriteMemoryRecord.denied⟩]) := by
  unfold stdWriteMemory
  rw [stdBuildErrors_inRange WriteMemoryRecord.denied false rs re a buf.length
    hlen h1 h2]
  simp [rmIsEmpty]

/-- The read chunk loop for a request held entirely inside the first chunk. -/
theorem stdReadChunkLoop_firstChunk (store : ByteStore) (cn k : Nat)
    (buf : List Nat) (hcn : 0 < cn) (hk : k + buf.length < CHUNK_SIZE)
    (hlen : 0 < buf.length) :
    stdReadChunkLoop store cn k (k + buf.length) 0 1 [0] buf 0 =
      some ((List.range buf.length).map (fun i => store (k + i))) := by
  have hkc : k % CHUNK_SIZE = k := Nat.mod_eq_of_lt (by omega)
  have hke : (k + buf.length) % CHUNK_SIZE = k + buf.length :=
    Nat.mod_eq_of_lt (by omega)
  unfold stdReadChunkLoop
  rw [if_pos hcn]
  simp only [if_true, eq_self_iff_true, Nat.sub_self, hkc, hke, if_pos rfl,
    Nat.add_sub_cancel_left, Nat.zero_add, Nat.zero_mul]
  rw [if_pos ⟨Nat.le_add_right k buf.length, le_refl buf.length⟩,
    listSetRange_zero_full buf _ (by simp), if_pos (by simp)]

/-- Evaluation of the `StandardMemory::read_memory` success path, for a readable component and
an access inside the assigned range whose relative byte range stays strictly
inside the first chunk: the stored bytes are returned with no records. -/
theorem stdReadMemory_firstChunk (w : Bool) (rs re a : Nat) (store : ByteStore)
    (buf : List Nat) (hlen : 0 < buf.length) (h1 : rs ≤ a)
    (h2 : a + buf.length ≤ re) (h3 : a - rs + buf.length < CHUNK_SIZE) :
    stdReadMemory ⟨true, w, rs, re⟩ store a buf =
      some ((List.range buf.length).map (fun i => store (a - rs + i)), []) := by
  unfold stdReadMemory
  rw [stdBuildErrors_inRange ReadMemoryRecord.denied true rs re a buf.length
    hlen h1 h2, if_pos rfl]
  have hcn : 0 < (re - rs + (CHUNK_SIZE - 1)) / CHUNK_SIZE := by
    apply Nat.div_pos _ (by simp [CHUNK_SIZE])
    simp only [CHUNK_SIZE] at h3 ⊢
    omega
  have hstart : (a - rs) / CHUNK_SIZE = 0 := Nat.div_eq_of_lt (by omega)
  have hend : (a - rs + buf.length + (CHUNK_SIZE - 1)) / CHUNK_SIZE = 1 := by
    apply Nat.div_eq_of_lt_le
    · simp only [CHUNK_SIZE] at h3 ⊢
      omega
    · simp only [CHUNK_SIZE] at h3 ⊢
      omega
  simp only [Option.pure_def, Option.bind_eq_bind, Option.some_bind,
    rmIsEmpty, List.isEmpty_nil, Bool.not_true, Bool.false_eq_true, if_false,
    hstart, hend]
  rw [show List.range' 0 (1 - 0) = [0] from rfl]
  rw [stdReadChunkLoop_firstChunk store _ (a - rs) buf hcn (by omega) hlen]
  rfl

/-- A single claim covering the whole access is the only overlap. -/
theorem rmOverlapping_single (s e cid a len : Nat) (h1 : s ≤ a)
    (h2 : a + len ≤ e) (hlen : 0 < len) :
    rmOverlapping [⟨s, e, cid⟩] (0 + a) (len + a) = [⟨s, e, cid⟩] := by
  have hc : (decide (s < len + a) && decide (0 + a < e)) = true := by
    simp only [Bool.and_eq_true, decide_eq_true_eq]
    omega
  simp only [rmOverlapping, List.filter]
  rw [hc]

/-- A length in `VALID_ACCESS_SIZES` is positive. -/
theorem validSize_pos {len : Nat} (hv : len ∈ VALID_ACCESS_SIZES) : 0 < len := by
  fin_cases hv <;> decide

theorem validSize_contains {len : Nat} (hv : len ∈ VALID_ACCESS_SIZES) :
    VALID_ACCESS_SIZES.contains len = true := by
  simpa [List.contains] using hv

/-! ### Claim C6 -/

/-- C6: every write of a valid access width addressed entirely inside the
claimed range of a plain backing-store component configured non-writable is
reported as Denied for exactly the requested byte range, and every byte of
every backing store is unchanged afterwards. -/
theorem claim_C6 (s e a : Nat) (r : Bool) (buf : List Nat) (stores : Stores)
    (fuel : Nat) (hv : buf.length ∈ VALID_ACCESS_SIZES) (h1 : s ≤ a)
    (h2 : a + buf.length ≤ e) :
    (mttWrite (singleStandard ⟨r, false, s, e⟩) stores (fuel + 1) a buf).1 =
      WriteRes.err [⟨a, a + buf.length, WriteFailureType.denied⟩] ∧
    ∀ cid i,
      (mttWrite (singleStandard ⟨r, false, s, e⟩) stores (fuel + 1) a buf).2 cid i =
        stores cid i := by
  have hlen : 0 < buf.length := validSize_pos hv
  have hkey : mttWrite (singleStandard ⟨r, false, s, e⟩) stores (fuel + 1) a buf =
      (WriteRes.err [⟨a, a + buf.length, WriteFailureType.denied⟩],
        updateStore stores 0 (stores 0)) := by
    unfold mttWrite
    rw [if_pos (validSize_contains hv)]
    show mttWriteGo _ _ (fuel + 1) _ _ = _
    unfold mttWriteGo
    rw [show rmOverlapping (singleStandard ⟨r, false, s, e⟩).mappings (0 + a)
          (buf.length + a) = [⟨s, e, 0⟩] from
        rmOverlapping_single s e 0 a buf.length h1 h2 hlen]
    unfold procWriteOverlaps
    rw [show lookupComp (singleStandard ⟨r, false, s, e⟩).components 0 =
          some (.standard ⟨r, false, s, e⟩) from rfl]
    simp only [List.drop_zero, Nat.sub_zero, List.take_length, Nat.zero_add]
    rw [Nat.max_eq_left h1]
    rw [show compWriteMemory (.standard ⟨r, false, s, e⟩) (stores 0) a buf =
          some (stores 0, [⟨a, a + buf.length, WriteMemoryRecord.denied⟩]) from
        stdWriteMemory_denied r s e a (stores 0) buf hlen h1 h2]
    simp only [procWriteRecords,
      rmInsert_nil a (a + buf.length) WriteFailureType.denied (by omega),
      Option.pure_def, Option.bind_eq_bind, Option.some_bind, rmIsEmpty,
      List.isEmpty_cons, Bool.not_false, if_true, Bool.false_eq_true, if_false]
  rw [hkey]
  refine ⟨rfl, ?_⟩
  intro cid i
  simp only [updateStore]
  split
  · rename_i hc; subst hc; rfl
  · rfl

/-! ### Claim C4, amended part -/

/-- The default preview of a readable plain backing store succeeds with the
stored bytes: `read_memory` produces no records, so the translated preview
error map is empty too. -/
theorem compPreviewMemory_standard_ok (w : Bool) (rs re a : Nat)
    (store : ByteStore) (buf : List Nat) (hlen : 0 < buf.length) (h1 : rs ≤ a)
    (h2 : a + buf.length ≤ re) (h3 : a - rs + buf.length < CHUNK_SIZE) :
    compPreviewMemory (.standard ⟨true, w, rs, re⟩) store a buf =
      some ((List.range buf.length).map (fun i => store (a - rs + i)), []) := by
  unfold compPreviewMemory
  show (stdReadMemory ⟨true, w, rs, re⟩ store a buf).bind _ = _
  rw [stdReadMemory_firstChunk w rs re a store buf hlen h1 h2 h3]
  rfl

/-- C4 (amended): a memory component that does not override `preview_memory`
has previews delegated to `read_memory` with its records translated
(Denied to Denied, Redirect to Redirect, never Impossible).  In particular a
preview of a range owned by a readable plain backing store succeeds and
returns exactly the bytes a read returns — not a PreviewImpossible error. -/
theorem claim_C4 (s e a : Nat) (w : Bool) (store : ByteStore) (buf : List Nat)
    (fuel : Nat) (hv : buf.length ∈ VALID_ACCESS_SIZES) (h1 : s ≤ a)
    (h2 : a + buf.length ≤ e) (h3 : a - s + buf.length < CHUNK_SIZE) :
    mttPreview (singleStandard ⟨true, w, s, e⟩) (fun _ => store) (fuel + 1) a buf =
      PreviewResult.ok ((List.range buf.length).map (fun i => store (a - s + i))) ∧
    mttRead (singleStandard ⟨true, w, s, e⟩) (fun _ => store) (fuel + 1) a buf =
      ReadResult.ok ((List.range buf.length).map (fun i => store (a - s + i))) := by
  have hlen := validSize_pos hv
  have hblen : ((List.range buf.length).map (fun i => store (a - s + i))).length
      = buf.length := by simp
  constructor
  · unfold mttPreview
    rw [if_pos (validSize_contains hv)]
    show mttPreviewGo _ _ (fuel + 1) _ _ = _
    unfold mttPreviewGo
    rw [show rmOverlapping (singleStandard ⟨true, w, s, e⟩).mappings (0 + a)
          (buf.length + a) = [⟨s, e, 0⟩] from
      rmOverlapping_single s e 0 a buf.length h1 h2 hlen]
    unfold procPreviewOverlaps
    rw [show lookupComp (singleStandard ⟨true, w, s, e⟩).components 0 =
        some (.standard ⟨true, w, s, e⟩) from rfl]
    simp only [List.drop_zero, Nat.sub_zero, List.take_length, Nat.zero_add]
    rw [Nat.max_eq_left h1,
      compPreviewMemory_standard_ok w s e a store buf hlen h1 h2 h3]
    simp only [procPreviewRecords, rmIsEmpty, List.isEmpty_nil, if_true,
      listSetRange_zero_full buf _ hblen]
    simp [procPreviewOverlaps, mttPreviewGo]
  · unfold mttRead
    rw [if_pos (validSize_contains hv)]
    show mttReadGo _ _ (fuel + 1) _ _ = _
    unfold mttReadGo
    rw [show rmOverlapping (singleStandard ⟨true, w, s, e⟩).mappings (0 + a)
          (buf.length + a) = [⟨s, e, 0⟩] from
      rmOverlapping_single s e 0 a buf.length h1 h2 hlen]
    unfold procReadOverlaps
    rw [show lookupComp (singleStandard ⟨true, w, s, e⟩).components 0 =
        some (.standard ⟨true, w, s, e⟩) from rfl]
    simp only [List.drop_zero, Nat.sub_zero, List.take_length, Nat.zero_add]
    rw [Nat.max_eq_left h1]
    rw [show compReadMemory (.standard ⟨true, w, s, e⟩) ((fun _ => store) 0) a buf
        = some ((List.range buf.length).map (fun i => store (a - s + i)), []) from
      stdReadMemory_firstChunk w s e a store buf hlen h1 h2 h3]
    simp only [procReadRecords, rmIsEmpty, List.isEmpty_nil, if_true,
      listSetRange_zero_full buf _ hblen]
    simp [procReadOverlaps, mttReadGo]

/-- C4 witness: four bytes at 4 of a readable store over `[0, 16)` holding
only the byte value 7. -/
theorem claim_C4_witness :
    (4 : Nat) ∈ VALID_ACCESS_SIZES ∧ (0 : Nat) ≤ 4 ∧ 4 + 4 ≤ 16 ∧
      4 - 0 + 4 < CHUNK_SIZE ∧
    (mttPreview (singleStandard ⟨true, true, 0, 16⟩) (fun _ _ => 7) 1 4
        [0, 0, 0, 0] = PreviewResult.ok [7, 7, 7, 7] ∧
      mttRead (singleStandard ⟨true, true, 0, 16⟩) (fun _ _ => 7) 1 4
        [0, 0, 0, 0] = ReadResult.ok [7, 7, 7, 7]) := by
  refine ⟨by decide, by decide, by decide, by decide, ?_⟩
  have h := claim_C4 0 16 4 true (fun _ => 7) [0, 0, 0, 0] 0
    (by decide) (by decide) (by decide) (by decide)
  simpa using h

/-! ### Claim C3, amended part -/

theorem stdReadChunkLoop_length (store : ByteStore)
    (cn rs re sc ec : Nat) :
    ∀ (chunks : List Nat) (buf : List Nat) (off : Nat) {b2 : List Nat},
      stdReadChunkLoop store cn rs re sc ec chunks buf off = some b2 →
      b2.length = buf.length := by
  intro chunks
  induction chunks with
  | nil =>
    intro buf off b2 h
    injection h with h
    rw [← h]
  | cons ci rest ih =>
    intro buf off b2 h
    simp only [stdReadChunkLoop] at h
    split_ifs at h
    all_goals first
      | (injection h with h; rw [← h, listSetRange_length])
      | (rw [ih _ _ h, listSetRange_length])
      | (exact absurd h (by simp))

/-- Whatever `StandardMemory::read_memory` returns, its records are Denied
records over nonempty ranges (it never redirects), and the buffer keeps its
length. -/
theorem stdReadMemory_shape (cfg : StandardMemoryConfig) (store : ByteStore)
    (address : Nat) (buf : List Nat) {b : List Nat}
    {recs : RMap ReadMemoryRecord}
    (h : stdReadMemory cfg store address buf = some (b, recs)) :
    (∀ x ∈ recs, x.val = ReadMemoryRecord.denied ∧ x.start < x.stop) ∧
      b.length = buf.length := by
  unfold stdReadMemory at h
  simp only [Option.pure_def, Option.bind_eq_bind, Option.bind_eq_some] at h
  rcases h with ⟨errors, hbe, h⟩
  split at h
  · simp only [Option.some.injEq, Prod.mk.injEq] at h
    obtain ⟨hb, hr⟩ := h
    subst hb; subst hr
    exact ⟨stdBuildErrors_prop _ _ _ _ _ _ hbe, rfl⟩
  · simp only [Option.bind_eq_some] at h
    rcases h with ⟨buf2, hcl, h⟩
    simp only [Option.some.injEq, Prod.mk.injEq] at h
    obtain ⟨hb, hr⟩ := h
    subst hb; subst hr
    exact ⟨by simp, stdReadChunkLoop_length store _ _ _ _ _ _ _ _ hcl⟩

/-- Processing a list of Denied records never touches the work stack and
never panics. -/
theorem procReadRecords_denied (ad cs ce : Nat) :
    ∀ (recs : List (RMEntry ReadMemoryRecord)) (det : RMap ReadFailureType)
      (stack : List Access),
      (∀ x ∈ recs, x.val = ReadMemoryRecord.denied ∧ x.start < x.stop) →
      ∃ det2, procReadRecords ad cs ce recs det stack = some (det2, stack) := by
  intro recs
  induction recs with
  | nil => intro det stack _; exact ⟨det, rfl⟩
  | cons ent rest ih =>
    intro det stack hq
    obtain ⟨hval, hlt⟩ := hq ent (by simp)
    rcases rmInsert_isSome det ent.start ent.stop ReadFailureType.denied hlt
      with ⟨det1, hins⟩
    rcases ih det1 stack (fun x hx => hq x (by simp [hx])) with ⟨det2, h2⟩
    refine ⟨det2, ?_⟩
    simp only [procReadRecords, hval, hins, Option.pure_def, Option.bind_eq_bind,
      Option.some_bind]
    exact h2

/-- Folding the translation-table read over claims that all belong to plain
backing stores either returns early (an error or a panic — never fuel
exhaustion) or finishes with the work stack unchanged. -/
theorem procReadOverlaps_standard (mtt : MemoryTranslationTable) (stores : Stores)
    (ad ss se : Nat) :
    ∀ (ovl : RMap ComponentId) (buf : List Nat) (stack : List Access),
      (∀ cr ∈ ovl, isStandardComp mtt cr.val = true) →
      (∃ r, procReadOverlaps mtt stores ad ss se ovl buf stack = .inl r ∧
          r ≠ ReadResult.fuelOut) ∨
      (∃ buf2, procReadOverlaps mtt stores ad ss se ovl buf stack =
          .inr (buf2, stack)) := by
  intro ovl
  induction ovl with
  | nil => intro buf stack _; exact Or.inr ⟨buf, rfl⟩
  | cons cr rest ih =>
    intro buf stack hstd
    have hcr := hstd cr (by simp)
    obtain ⟨cfg, hlook⟩ : ∃ cfg, lookupComp mtt.components cr.val =
        some (CompBehavior.standard cfg) := by
      unfold isStandardComp at hcr
      rcases hl : lookupComp mtt.components cr.val with _ | beh
      · rw [hl] at hcr; simp at hcr
      · cases beh with
        | standard cfg => exact ⟨cfg, rfl⟩
        | mirror base target => rw [hl] at hcr; simp at hcr
    rcases hrm : compReadMemory (CompBehavior.standard cfg) (stores cr.val)
        (max (ss + ad) cr.start) ((buf.drop ss).take (se - ss)) with _ | p
    · refine Or.inl ⟨.panic, ?_, by simp⟩
      simp only [procReadOverlaps, hlook, hrm]
    · obtain ⟨b, recs⟩ := p
      have hshape := stdReadMemory_shape cfg (stores cr.val) _ _ (by exact hrm)
      rcases procReadRecords_denied ad cr.start cr.stop recs [] stack hshape.1
        with ⟨det2, hproc⟩
      by_cases hde : rmIsEmpty det2 = true
      · have hstep : procReadOverlaps mtt stores ad ss se (cr :: rest) buf stack =
            procReadOverlaps mtt stores ad ss se rest (listSetRange buf ss b) stack := by
          simp only [procReadOverlaps, hlook, hrm, hproc, hde, if_true]
        rcases ih (listSetRange buf ss b) stack
            (fun x hx => hstd x (by simp [hx])) with h | h
        · rcases h with ⟨r, hr, hne⟩
          exact Or.inl ⟨r, by rw [hstep, hr], hne⟩
        · rcases h with ⟨buf2, hr⟩
          exact Or.inr ⟨buf2, by rw [hstep, hr]⟩
      · refine Or.inl ⟨.err det2, ?_, by simp⟩
        simp only [procReadOverlaps, hlook, hrm, hproc]
        rw [if_neg hde]

/-- A work stack whose every item lands only on plain backing stores drains:
with fuel at least the stack length, the loop does not run out of fuel. -/
theorem mttReadGo_standard_stack (mtt : MemoryTranslationTable) (stores : Stores) :
    ∀ (fuel : Nat) (stack : List Access) (buf : List Nat),
      stack.length ≤ fuel →
      (∀ acc ∈ stack,
        onlyStandardRegion mtt (acc.2.1 + acc.1) (acc.2.2 + acc.1) = true) →
      mttReadGo mtt stores fuel stack buf ≠ ReadResult.fuelOut := by
  intro fuel
  induction fuel with
  | zero =>
    intro stack buf hl _
    have hnil : stack = [] := List.eq_nil_of_length_eq_zero (Nat.le_zero.mp hl)
    subst hnil
    simp [mttReadGo]
  | succ k ih =>
    intro stack buf hl hstd
    cases stack with
    | nil => simp [mttReadGo]
    | cons acc rest =>
      obtain ⟨ad, ss, se⟩ := acc
      have hov : ∀ cr ∈ rmOverlapping mtt.mappings (ss + ad) (se + ad),
          isStandardComp mtt cr.val = true := by
        have h0 := hstd (ad, ss, se) (by simp)
        unfold onlyStandardRegion at h0
        exact List.all_eq_true.mp h0
      rcases procReadOverlaps_standard mtt stores ad ss se
          (rmOverlapping mtt.mappings (ss + ad) (se + ad)) buf rest hov with h | h
      · rcases h with ⟨r, hr, hne⟩
        show mttReadGo mtt stores (k + 1) ((ad, ss, se) :: rest) buf ≠ _
        simp only [mttReadGo, hr]
        exact hne
      · rcases h with ⟨buf2, hr⟩
        show mttReadGo mtt stores (k + 1) ((ad, ss, se) :: rest) buf ≠ _
        simp only [mttReadGo, hr]
        exact ih rest buf2 (by simpa using hl)
          (fun x hx => hstd x (by simp [hx]))

/-- Processing the claims overlapped by a single-level-redirect access either
returns early (never fuel exhaustion) or finishes with a work stack whose
every item lands only on plain backing stores. -/
theorem procReadOverlaps_oneHop (mtt : MemoryTranslationTable) (stores : Stores)
    (ad len : Nat) :
    ∀ (ovl : RMap ComponentId) (buf : List Nat) (stack : List Access),
      buf.length = len →
      (∀ cr ∈ ovl, oneHopCr mtt ad len cr = true) →
      (∀ acc ∈ stack,
        onlyStandardRegion mtt (acc.2.1 + acc.1) (acc.2.2 + acc.1) = true) →
      (∃ r, procReadOverlaps mtt stores ad 0 len ovl buf stack = .inl r ∧
          r ≠ ReadResult.fuelOut) ∨
      (∃ buf2 stack2, procReadOverlaps mtt stores ad 0 len ovl buf stack =
          .inr (buf2, stack2) ∧
          ∀ acc ∈ stack2,
            onlyStandardRegion mtt (acc.2.1 + acc.1) (acc.2.2 + acc.1) = true) := by
  intro ovl
  induction ovl with
  | nil =>
    intro buf stack _ _ hstack
    exact Or.inr ⟨buf, stack, rfl, hstack⟩
  | cons cr rest ih =>
    intro buf stack hblen hhop hstack
    have hcr := hhop cr (by simp)
    have hslice : (buf.drop 0).take (len - 0) = buf := by
      rw [List.drop_zero, Nat.sub_zero, ← hblen, List.take_length]
    unfold oneHopCr at hcr
    rcases hlook : lookupComp mtt.components cr.val with _ | beh
    · rw [hlook] at hcr; simp at hcr
    · cases beh with
      | standard cfg =>
        rcases hrm : compReadMemory (CompBehavior.standard cfg) (stores cr.val)
            (max (0 + ad) cr.start) ((buf.drop 0).take (len - 0)) with _ | p
        · refine Or.inl ⟨.panic, ?_, by simp⟩
          simp only [procReadOverlaps, hlook, hrm]
        · obtain ⟨b, recs⟩ := p
          have hshape := stdReadMemory_shape cfg (stores cr.val) _ _ (by exact hrm)
          rcases procReadRecords_denied ad cr.start cr.stop recs [] stack hshape.1
            with ⟨det2, hproc⟩
          by_cases hde : rmIsEmpty det2 = true
          · have hstep : procReadOverlaps mtt stores ad 0 len (cr :: rest) buf stack =
                procReadOverlaps mtt stores ad 0 len rest (listSetRange buf 0 b)
                  stack := by
              simp only [procReadOverlaps, hlook, hrm, hproc, hde, if_true]
            have hblen2 : (listSetRange buf 0 b).length = len := by
              rw [listSetRange_length]; exact hblen
            rcases ih (listSetRange buf 0 b) stack hblen2
                (fun x hx => hhop x (by simp [hx])) hstack with h | h
            · rcases h with ⟨r, hr, hne⟩
              exact Or.inl ⟨r, by rw [hstep, hr], hne⟩
            · rcases h with ⟨buf2, stack2, hr, hst2⟩
              exact Or.inr ⟨buf2, stack2, by rw [hstep, hr], hst2⟩
          · refine Or.inl ⟨.err det2, ?_, by simp⟩
            simp only [procReadOverlaps, hlook, hrm, hproc]
            rw [if_neg hde]
      | mirror base target =>
        rw [hlook] at hcr
        simp only [Bool.and_eq_true, Bool.not_eq_true', decide_eq_false_iff_not]
          at hcr
        obtain ⟨hnred, hreg⟩ := hcr
        by_cases hcap : stack.length < MAX_ACCESS_SIZE
        · have hstep : procReadOverlaps mtt stores ad 0 len (cr :: rest) buf stack =
              procReadOverlaps mtt stores ad 0 len rest buf
                ((max (0 + ad) cr.start - base + target,
                  max (0 + ad) cr.start - ad,
                  max (0 + ad) cr.start + len - ad) :: stack) := by
            simp only [procReadOverlaps, hlook, compReadMemory, hslice, hblen,
              procReadRecords, pushAccess]
            rw [if_neg hnred, if_pos hcap]
            simp only [Option.pure_def, Option.bind_eq_bind, Option.some_bind,
              procReadRecords, rmIsEmpty, List.isEmpty_nil, if_true,
              listSetRange_zero_full buf buf rfl]
          rcases ih buf
              ((max (0 + ad) cr.start - base + target,
                max (0 + ad) cr.start - ad,
                max (0 + ad) cr.start + len - ad) :: stack) hblen
              (fun x hx => hhop x (by simp [hx]))
              (by
                intro accp hacc
                rcases List.mem_cons.mp hacc with hacc | hacc
                · subst hacc
                  exact hreg
                · exact hstack accp hacc) with h | h
          · rcases h with ⟨r, hr, hne⟩
            exact Or.inl ⟨r, by rw [hstep, hr], hne⟩
          · rcases h with ⟨buf2, stack2, hr, hst2⟩
            exact Or.inr ⟨buf2, stack2, by rw [hstep, hr], hst2⟩
        · refine Or.inl ⟨.panic, ?_, by simp⟩
          simp only [procReadOverlaps, hlook, compReadMemory, hslice, hblen,
            procReadRecords, pushAccess]
          rw [if_neg hnred, if_neg hcap]
          simp

/-- C3 (amended): the self-redirect assertion fires — a component reporting a
Redirect whose target lies inside the claimed range being accessed makes the
operation panic — but the assertion alone does not bound the resolution loop
(two components redirecting into each other loop forever, see the
counterexample); termination does hold for every access whose redirect
resolution is single-level: each overlapped claim is a plain backing store or
a mirror redirecting, not into its own range, onto plain backing stores
only. -/
theorem claim_C3 :
    (∀ (s e base target a fuel : Nat) (buf : List Nat) (stores : Stores),
        buf.length ∈ VALID_ACCESS_SIZES → s ≤ a → a + buf.length ≤ e →
        s ≤ a - base + target → a - base + target < e →
        mttRead (singleMirror s e base target) stores (fuel + 1) a buf =
          ReadResult.panic) ∧
    (∀ (mtt : MemoryTranslationTable) (stores : Stores) (a : Nat)
        (buf : List Nat),
        buf.length ∈ VALID_ACCESS_SIZES →
        oneHopRead mtt a buf.length = true →
        readTerminates mtt stores a buf) := by
  constructor
  · intro s e base target a fuel buf stores hv h1 h2 h3 h4
    have hlen := validSize_pos hv
    unfold mttRead
    rw [if_pos (validSize_contains hv)]
    show mttReadGo _ _ (fuel + 1) _ _ = _
    unfold mttReadGo
    rw [show rmOverlapping (singleMirror s e base target).mappings (0 + a)
          (buf.length + a) = [⟨s, e, 0⟩] from
      rmOverlapping_single s e 0 a buf.length h1 h2 hlen]
    unfold procReadOverlaps
    rw [show lookupComp (singleMirror s e base target).components 0 =
        some (.mirror base target) from rfl]
    simp only [List.drop_zero, Nat.sub_zero, List.take_length, Nat.zero_add,
      compReadMemory]
    rw [Nat.max_eq_left h1]
    simp only [procReadRecords]
    rw [if_pos ⟨h3, h4⟩]
  · intro mtt stores a buf hv hhop
    unfold oneHopRead at hhop
    have hcr := List.all_eq_true.mp hhop
    rcases procReadOverlaps_oneHop mtt stores a buf.length
        (rmOverlapping mtt.mappings (0 + a) (buf.length + a)) buf [] rfl hcr
        (by simp) with h | h
    · rcases h with ⟨r, hr, hne⟩
      refine ⟨1, ?_⟩
      unfold mttRead
      rw [if_pos (validSize_contains hv)]
      show mttReadGo _ _ 1 [(a, 0, buf.length)] buf ≠ _
      simp only [mttReadGo, hr]
      exact hne
    · rcases h with ⟨buf2, stack2, hr, hst2⟩
      refine ⟨stack2.length + 1, ?_⟩
      unfold mttRead
      rw [if_pos (validSize_contains hv)]
      show mttReadGo _ _ (stack2.length + 1) [(a, 0, buf.length)] buf ≠ _
      simp only [mttReadGo, hr]
      exact mttReadGo_standard_stack mtt stores stack2.length stack2 buf2
        (le_refl _) hst2

/-- C3 witness: the self-redirect half on a mirror `[0, 16)` targeting its
own byte 8, read at 5; the termination half on the spec mirror arrangement
(`[0x10000, 0x20000)` onto a plain store), one byte at 0x10000. -/
theorem claim_C3_witness :
    (mttRead (singleMirror 0 16 0 8) zeroStores 3 5 [0] = ReadResult.panic) ∧
    oneHopRead mttOneHop 65536 1 = true ∧
    readTerminates mttOneHop ffStores 65536 [0] :=
  ⟨claim_C3.1 0 16 0 8 5 2 [0] zeroStores (by decide) (by decide) (by decide)
      (by decide) (by decide),
    by decide,
    claim_C3.2 mttOneHop ffStores 65536 [0] (by decide) (by decide)⟩

/-- C6 witness: a non-writable store over `[0, 16)`, two-byte write at 4. -/
theorem claim_C6_witness :
    (2 : Nat) ∈ VALID_ACCESS_SIZES ∧ (0 : Nat) ≤ 4 ∧ 4 + 2 ≤ 16 ∧
    ((mttWrite (singleStandard ⟨true, false, 0, 16⟩) zeroStores 1 4 [9, 9]).1 =
      WriteRes.err [⟨4, 4 + 2, WriteFailureType.denied⟩] ∧
    ∀ cid i,
      (mttWrite (singleStandard ⟨true, false, 0, 16⟩) zeroStores 1 4 [9, 9]).2 cid i =
        zeroStores cid i) :=
  ⟨by decide, by decide, by decide,
    claim_C6 0 16 4 true [9, 9] zeroStores 0 (by decide) (by decide) (by decide)⟩

end Multiemu
